/-
Verification of `add-connect-calls.py`: a line-oriented rewriter that scans a
file for declarations of the form `<ident> := [spatial.]NewBasicRoom(` or
`<ident> := [spatial.]NewBasicRoomOrchestrator(`, brace-counts forward to the
end of the initializer block, and emits a `<ident>.ConnectToEventBus(eventBus)`
line there.

The embedding models the file as a `List String` of lines (each line keeps its
trailing newline character, as Python's `readlines` produces them).  The two
nested loops of `fix_eventbus_connections` are modelled by structural recursion
over the suffix of the line list: the inner loop only ever inspects
`lines[j]` for `j ≥ i`, and the outer loop resumes at `j + 1`.
-/
import Mathlib

namespace AddConnectCalls

/-- Python's `\s` character class, restricted to the ASCII whitespace
characters (space, tab, newline, carriage return, vertical tab, form feed).
The inputs of interest are ASCII source text. -/
def pyIsSpace (c : Char) : Bool :=
  c = ' ' || c = '\t' || c = '\n' || c = '\r' || c = '\x0b' || c = '\x0c'

/-- Python's `\w` character class, restricted to ASCII: letters, digits and
underscore. -/
def pyIsWord (c : Char) : Bool :=
  c.isAlphanum || c = '_'

/-- Match a literal character sequence at the front of the input, returning
the remainder on success (`re` literal matching). -/
def stripLit : List Char → List Char → Option (List Char)
  | [], cs => some cs
  | _ :: _, [] => none
  | p :: ps, c :: cs => if c = p then stripLit ps cs else none

/-- The tail of the pattern: `New(BasicRoom|BasicRoomOrchestrator)\(`.
The regex alternation first tries `BasicRoom` followed by `\(`; on failure it
backtracks to `BasicRoomOrchestrator` followed by `\(`. -/
def matchFactory (cs : List Char) : Bool :=
  match stripLit "NewBasicRoom".toList cs with
  | none => false
  | some r =>
    match r with
    | '(' :: _ => true
    | _ => (stripLit "Orchestrator(".toList r).isSome

/-- Model of `re.match(r'\s*(\w+)\s*:=\s*(spatial\.)?New(BasicRoom|BasicRoomOrchestrator)\(', line)`,
returning the captured identifier (`match.group(1)`) on success.

Greedy matching of `\s*` and `\w+` here is deterministic: `\s` and `\w` are
disjoint, `\w` does not contain `:`, and `s`/`N` (the characters that can
follow the third `\s*`) are not whitespace, so no backtracking into the
starred/plus pieces can ever succeed where the greedy match failed.  The
optional group `(spatial\.)?` is tried first with the group present, then
without, exactly as the regex engine does. -/
def matchDecl (line : String) : Option String :=
  let cs := line.toList.dropWhile pyIsSpace
  let w := cs.takeWhile pyIsWord
  if w.isEmpty then none
  else
    let r1 := (cs.dropWhile pyIsWord).dropWhile pyIsSpace
    match stripLit ":=".toList r1 with
    | none => none
    | some r2 =>
      let r3 := r2.dropWhile pyIsSpace
      let ok :=
        match stripLit "spatial.".toList r3 with
        | some r4 => matchFactory r4 || matchFactory r3
        | none => matchFactory r3
      if ok then some (String.mk w) else none

/-- State of the character-level brace scan: the running `bracket_count`
(a Python `int`, hence `Int`), the `found_opening` flag, and whether the
`for char in current_line` loop broke out after appending the
`ConnectToEventBus` line (which happens exactly when a `}` character brings
the count to zero while `found_opening` is set). -/
structure ScanState where
  count : Int
  found : Bool
  appended : Bool
deriving DecidableEq, Repr

/-- The `for char in current_line` loop: every `{` increments the count and
sets `found_opening`; every `}` decrements it, and if `found_opening` holds
and the count just reached zero the synthesized line is appended and the loop
breaks (the rest of the line is not scanned).  All other characters are
ignored. -/
def scanChars : List Char → Int → Bool → ScanState
  | [], c, f => ⟨c, f, false⟩
  | ch :: cs, c, f =>
    if ch = '\x7b' then scanChars cs (c + 1) true
    else if ch = '\x7d' then
      if f && (c - 1 == 0) then ⟨c - 1, f, true⟩
      else scanChars cs (c - 1) f
    else scanChars cs c f

/-- The synthesized line: `f"\t{var_name}.ConnectToEventBus(eventBus)\n"`. -/
def connectLine (v : String) : String :=
  "\t" ++ v ++ ".ConnectToEventBus(eventBus)\n"

/-- One line's worth of the character loop. -/
def scanLine (l : String) (c : Int) (f : Bool) : ScanState :=
  scanChars l.toList c f

/-- The exit condition of the inner `while` loop after scanning a line:
`found_opening and bracket_count == 0`. -/
def closesHere (s : ScanState) : Bool :=
  s.found && (s.count == 0)

/-- The inner `while j < len(lines)` loop for positions `j > i`: each line is
scanned; if the loop-exit condition `found_opening and bracket_count == 0`
holds after scanning, the loop breaks (having appended the synthesized line
exactly when the character loop broke), and the current line is NOT appended;
otherwise the current line is appended (`j > i`) and the scan continues.
Returns the appended output lines and the number of lines advanced past
(so that the final `j` is the starting position plus that number). -/
def scanRest (v : String) (c : Int) (f : Bool) : List String → List String × Nat
  | [] => ([], 0)
  | l :: ls =>
    let s := scanLine l c f
    if closesHere s then
      ((if s.appended then [connectLine v] else []), 0)
    else
      let r := scanRest v s.count s.found ls
      (l :: r.1, r.2 + 1)

/-- The first iteration of the inner loop (`j == i`, the declaration line):
identical to `scanRest` except that the current line is never re-appended
(the outer loop already emitted it). -/
def scanFromDecl (v : String) : List String → List String × Nat
  | [] => ([], 0)
  | l :: ls =>
    let s := scanLine l 0 false
    if closesHere s then
      ((if s.appended then [connectLine v] else []), 0)
    else
      let r := scanRest v s.count s.found ls
      (r.1, r.2 + 1)

/-- Position at which the inner scan terminates by its brace condition, if it
does: `some (n, app)` means the loop-exit condition `found_opening and
bracket_count == 0` first holds after scanning the `n`-th line of the given
suffix (0 = the declaration line itself), and `app` records whether the
character loop appended the synthesized line there (it fails to exactly when
the count reached zero at a `{` seen after a deficit of `}`).  `none` means
the scan runs off the end of the file. -/
def scanTrace (c : Int) (f : Bool) : List String → Option (Nat × Bool)
  | [] => none
  | l :: ls =>
    let s := scanLine l c f
    if closesHere s then some (0, s.appended)
    else (scanTrace s.count s.found ls).map (fun p => (p.1 + 1, p.2))

/-- The outer `while i < len(lines)` loop: each line is appended to the
output; if it matches the declaration pattern, the inner scan runs from the
same position, its output follows, and the outer loop resumes at `j + 1`
(i.e. past the last line the inner scan consumed).  The `Nat` argument is a
structural-recursion bound; every iteration consumes at least one line, so
a bound equal to the number of lines is never exhausted (see
`processAux_bound_irrel` and the step lemmas below). -/
def processAux : Nat → List String → List String
  | _, [] => []
  | 0, _ :: _ => []
  | m + 1, l :: ls =>
    match matchDecl l with
    | some v =>
      let r := scanFromDecl v (l :: ls)
      l :: (r.1 ++ processAux m (ls.drop r.2))
    | none => l :: processAux m ls

/-- The outer loop, run on the whole file. -/
def process (lines : List String) : List String :=
  processAux lines.length lines

/-- `fix_eventbus_connections`, as a function from the list of lines read
from the file to the list of lines written back. -/
def fix_eventbus_connections (lines : List String) : List String :=
  process lines

/-- Observable outcome of one invocation of the script: the exit code, the
lines printed to standard output, and the content written back to the file
(`none` when the file is neither read nor written). -/
structure MainResult where
  exitCode : Nat
  stdout : List String
  written : Option (List String)
deriving DecidableEq, Repr

/-- The `__main__` block: with `len(sys.argv) != 2` it prints the usage
message and exits with code 1 before touching any file; otherwise it rewrites
the file named by `sys.argv[1]` and prints the confirmation message
(implicit exit code 0). -/
def mainEntry (argv : List String) (fileLines : List String) : MainResult :=
  if argv.length = 2 then
    { exitCode := 0
      stdout := ["Fixed EventBus connections in " ++ argv.getD 1 ""]
      written := some (fix_eventbus_connections fileLines) }
  else
    { exitCode := 1
      stdout := ["Usage: python3 add-connect-calls.py <filename>"]
      written := none }

/-! ### The structural bound of the outer loop is irrelevant -/

/-- Any bound at least the number of remaining lines yields the same result:
the outer loop consumes at least one line per iteration. -/
lemma processAux_bound_irrel (N : Nat) :
    ∀ (s : List String), s.length ≤ N →
      ∀ (m k : Nat), s.length ≤ m → s.length ≤ k →
        processAux m s = processAux k s := by
  induction N with
  | zero =>
    intro s hs m k _ _
    have : s = [] := List.eq_nil_of_length_eq_zero (Nat.le_zero.mp hs)
    subst this
    cases m <;> cases k <;> rfl
  | succ N ihN =>
    intro s hs m k hm hk
    cases s with
    | nil => cases m <;> cases k <;> rfl
    | cons l ls =>
      simp only [List.length_cons] at hs hm hk
      obtain ⟨m2, rfl⟩ : ∃ m2, m = m2 + 1 :=
        ⟨m - 1, by omega⟩
      obtain ⟨k2, rfl⟩ : ∃ k2, k = k2 + 1 :=
        ⟨k - 1, by omega⟩
      simp only [processAux]
      cases hmd : matchDecl l with
      | none =>
        have := ihN ls (by omega) m2 k2 (by omega) (by omega)
        simp [this]
      | some v =>
        have hdl : (ls.drop (scanFromDecl v (l :: ls)).2).length ≤ ls.length := by
          simp only [List.length_drop]
          omega
        have := ihN (ls.drop (scanFromDecl v (l :: ls)).2) (by omega)
          m2 k2 (by omega) (by omega)
        simp [this]

/-- Step equation of the outer loop at a non-matching line. -/
lemma process_cons_none (l : String) (ls : List String)
    (h : matchDecl l = none) :
    process (l :: ls) = l :: process ls := by
  simp only [process, List.length_cons, processAux, h]

/-- Step equation of the outer loop at a matching line: the inner scan's
output follows the copied line, and the loop resumes past the lines the
inner scan consumed. -/
lemma process_cons_some (v l : String) (ls : List String)
    (h : matchDecl l = some v) :
    process (l :: ls)
      = l :: ((scanFromDecl v (l :: ls)).1
          ++ process (ls.drop (scanFromDecl v (l :: ls)).2)) := by
  simp only [process, List.length_cons, processAux, h]
  have := processAux_bound_irrel ls.length
    (ls.drop (scanFromDecl v (l :: ls)).2)
    (by simp only [List.length_drop]; omega)
    ls.length (ls.drop (scanFromDecl v (l :: ls)).2).length
    (by simp only [List.length_drop]; omega)
    (le_refl _)
  simp [this]

/-! ### Structural lemmas about the inner scan -/

/-- When the inner scan closes, it does so at a position inside the scanned
suffix. -/
lemma scanTrace_lt (s : List String) :
    ∀ (c : Int) (f : Bool) (n : Nat) (app : Bool),
      scanTrace c f s = some (n, app) → n < s.length := by
  induction s with
  | nil => intro c f n app h; simp [scanTrace] at h
  | cons l ls ih =>
    intro c f n app h
    simp only [scanTrace] at h
    by_cases hc : closesHere (scanLine l c f) = true
    · simp only [hc, if_true, Option.some.injEq, Prod.mk.injEq] at h
      simp [← h.1]
    · simp only [hc, if_false, Bool.false_eq_true, Option.map_eq_some'] at h
      obtain ⟨⟨m, app2⟩, hm, heq⟩ := h
      have := ih _ _ _ _ hm
      simp only [Prod.mk.injEq] at heq
      simp only [List.length_cons]
      omega

/-- If the scan runs off the end of the file, every remaining line is copied
and the position advances past every line. -/
lemma scanRest_of_trace_none (v : String) (s : List String) :
    ∀ (c : Int) (f : Bool), scanTrace c f s = none →
      scanRest v c f s = (s, s.length) := by
  induction s with
  | nil => intro c f _; rfl
  | cons l ls ih =>
    intro c f h
    simp only [scanTrace] at h
    simp only [scanRest]
    by_cases hc : closesHere (scanLine l c f) = true
    · simp [hc] at h
    · simp only [hc, if_false, Bool.false_eq_true, Option.map_eq_none'] at h
      simp [hc, ih _ _ h]

/-- If the scan closes at relative position `n`, the lines strictly before
`n` are copied, the closing line is not, and the synthesized line is emitted
exactly when the character loop appended it. -/
lemma scanRest_of_trace_some (v : String) (s : List String) :
    ∀ (c : Int) (f : Bool) (n : Nat) (app : Bool),
      scanTrace c f s = some (n, app) →
      scanRest v c f s =
        (s.take n ++ (if app then [connectLine v] else []), n) := by
  induction s with
  | nil => intro c f n app h; simp [scanTrace] at h
  | cons l ls ih =>
    intro c f n app h
    simp only [scanTrace] at h
    simp only [scanRest]
    by_cases hc : closesHere (scanLine l c f) = true
    · simp only [hc, if_true, Option.some.injEq, Prod.mk.injEq] at h
      simp [hc, ← h.1, ← h.2]
    · simp only [hc, if_false, Bool.false_eq_true, Option.map_eq_some'] at h
      obtain ⟨⟨m, app2⟩, hm, heq⟩ := h
      simp only [Prod.mk.injEq] at heq
      obtain ⟨hn, happ⟩ := heq
      subst happ
      simp [hc, ih _ _ _ _ hm, ← hn]

/-- Version of `scanRest_of_trace_none` for the scan as started on the
declaration line itself. -/
lemma scanFromDecl_of_trace_none (v l : String) (ls : List String)
    (h : scanTrace 0 false (l :: ls) = none) :
    scanFromDecl v (l :: ls) = (ls, ls.length + 1) := by
  simp only [scanTrace] at h
  simp only [scanFromDecl]
  by_cases hc : closesHere (scanLine l 0 false) = true
  · simp [hc] at h
  · simp only [hc, if_false, Bool.false_eq_true, Option.map_eq_none'] at h
    simp [hc, scanRest_of_trace_none v ls _ _ h]

/-- Version of `scanRest_of_trace_some` for the scan as started on the
declaration line itself: the declaration line is never re-emitted, so the
emitted copies are the `n - 1` lines strictly between the declaration line
and the closing line. -/
lemma scanFromDecl_of_trace_some (v l : String) (ls : List String)
    (n : Nat) (app : Bool)
    (h : scanTrace 0 false (l :: ls) = some (n, app)) :
    scanFromDecl v (l :: ls) =
      (ls.take (n - 1) ++ (if app then [connectLine v] else []), n) := by
  simp only [scanTrace] at h
  simp only [scanFromDecl]
  by_cases hc : closesHere (scanLine l 0 false) = true
  · simp only [hc, if_true, Option.some.injEq, Prod.mk.injEq] at h
    simp [hc, ← h.1, ← h.2]
  · simp only [hc, if_false, Bool.false_eq_true, Option.map_eq_some'] at h
    obtain ⟨⟨m, app2⟩, hm, heq⟩ := h
    simp only [Prod.mk.injEq] at heq
    obtain ⟨hn, happ⟩ := heq
    subst happ
    simp [hc, scanRest_of_trace_some v ls _ _ _ _ hm, ← hn]

/-- Every line emitted by the inner scan is either a copy of a scanned input
line or the synthesized line for the matched identifier. -/
lemma mem_scanRest (v : String) (s : List String) :
    ∀ (c : Int) (f : Bool) (x : String), x ∈ (scanRest v c f s).1 →
      x ∈ s ∨ x = connectLine v := by
  induction s with
  | nil => intro c f x h; simp [scanRest] at h
  | cons l ls ih =>
    intro c f x h
    simp only [scanRest] at h
    by_cases hc : closesHere (scanLine l c f) = true
    · simp only [hc, if_true] at h
      refine Or.inr ?_
      by_cases happ : (scanLine l c f).appended = true
      · simpa [happ] using h
      · simp [happ] at h
    · simp only [hc, if_false, Bool.false_eq_true, List.mem_cons] at h
      rcases h with h | h
      · exact Or.inl (by simp [h])
      · rcases ih _ _ _ h with h2 | h2
        · exact Or.inl (List.mem_cons_of_mem _ h2)
        · exact Or.inr h2

/-- Every line emitted by the inner scan starting at a declaration line is a
copy of a later input line or the synthesized line for the matched
identifier; in particular no other declaration inside the block contributes
a synthesized line of its own. -/
lemma mem_scanFromDecl (v l : String) (ls : List String) (x : String)
    (h : x ∈ (scanFromDecl v (l :: ls)).1) :
    x ∈ l :: ls ∨ x = connectLine v := by
  simp only [scanFromDecl] at h
  by_cases hc : closesHere (scanLine l 0 false) = true
  · simp only [hc, if_true] at h
    refine Or.inr ?_
    by_cases happ : (scanLine l 0 false).appended = true
    · simpa [happ] using h
    · simp [happ] at h
  · simp only [hc, if_false, Bool.false_eq_true] at h
    rcases mem_scanRest v ls _ _ _ h with h2 | h2
    · exact Or.inl (List.mem_cons_of_mem _ h2)
    · exact Or.inr h2

/-! ### The character scan is blind to everything but the two braces -/

/-- Step of the character loop at an opening brace. -/
lemma scanChars_cons_open (cs : List Char) (c : Int) (f : Bool) :
    scanChars ('\x7b' :: cs) c f = scanChars cs (c + 1) true := by
  simp [scanChars]

/-- Step of the character loop at a closing brace. -/
lemma scanChars_cons_close (cs : List Char) (c : Int) (f : Bool) :
    scanChars ('\x7d' :: cs) c f =
      if f && (c - 1 == 0) then ⟨c - 1, f, true⟩
      else scanChars cs (c - 1) f := by
  have hne : ('\x7d' : Char) ≠ '\x7b' := by decide
  simp [scanChars, hne]

/-- Step of the character loop at any other character: it is ignored. -/
lemma scanChars_cons_other (ch : Char) (cs : List Char) (c : Int) (f : Bool)
    (h1 : ch ≠ '\x7b') (h2 : ch ≠ '\x7d') :
    scanChars (ch :: cs) c f = scanChars cs c f := by
  simp [scanChars, h1, h2]

/-- Erasing every character other than the two brace characters does not
change the character scan: the scan has no notion of string literals,
comments, or any other lexical context. -/
lemma scanChars_filter (cs : List Char) :
    ∀ (c : Int) (f : Bool),
      scanChars (cs.filter fun ch => ch = '\x7b' || ch = '\x7d') c f
        = scanChars cs c f := by
  induction cs with
  | nil => intro c f; rfl
  | cons ch cs ih =>
    intro c f
    rw [List.filter_cons]
    by_cases h1 : ch = '\x7b'
    · subst h1
      rw [if_pos (by decide), scanChars_cons_open, scanChars_cons_open]
      exact ih _ _
    · by_cases h2 : ch = '\x7d'
      · subst h2
        rw [if_pos (by decide), scanChars_cons_close, scanChars_cons_close]
        by_cases hb : (f && (c - 1 == 0)) = true
        · rw [if_pos hb, if_pos hb]
        · rw [if_neg hb, if_neg hb]
          exact ih _ _
      · rw [if_neg (by simp [h1, h2]), scanChars_cons_other ch cs c f h1 h2]
        exact ih _ _

/-- When the character loop runs to the end of the line (it did not break
after appending), the final count is the initial count plus the number of
opening braces minus the number of closing braces on the line, and the
opening flag records exactly whether the line contains an opening brace —
regardless of any surrounding lexical context of those characters. -/
lemma scanChars_count (cs : List Char) :
    ∀ (c : Int) (f : Bool), (scanChars cs c f).appended = false →
      (scanChars cs c f).count
          = c + (cs.count '\x7b' : Int) - (cs.count '\x7d' : Int) ∧
        (scanChars cs c f).found = (f || cs.contains '\x7b') := by
  induction cs with
  | nil =>
    intro c f _
    simp [scanChars]
  | cons ch cs ih =>
    intro c f h
    by_cases h1 : ch = '\x7b'
    · subst h1
      rw [scanChars_cons_open] at h ⊢
      obtain ⟨hcnt, hfnd⟩ := ih _ _ h
      constructor
      · rw [hcnt, List.count_cons, List.count_cons]
        rw [if_pos (by decide : (('\x7b' : Char) == '\x7b') = true),
          if_neg (by decide : ¬ (('\x7b' : Char) == '\x7d') = true)]
        push_cast
        ring
      · rw [hfnd, List.contains_cons]
        simp
    · by_cases h2 : ch = '\x7d'
      · subst h2
        rw [scanChars_cons_close] at h ⊢
        by_cases hb : (f && (c - 1 == 0)) = true
        · rw [if_pos hb] at h
          simp at h
        · rw [if_neg hb] at h ⊢
          obtain ⟨hcnt, hfnd⟩ := ih _ _ h
          constructor
          · rw [hcnt, List.count_cons, List.count_cons]
            rw [if_neg (by decide : ¬ (('\x7d' : Char) == '\x7b') = true),
              if_pos (by decide : (('\x7d' : Char) == '\x7d') = true)]
            push_cast
            ring
          · rw [hfnd, List.contains_cons]
            rw [show (('\x7b' : Char) == '\x7d') = false from by decide]
            simp
      · rw [scanChars_cons_other ch cs c f h1 h2] at h ⊢
        obtain ⟨hcnt, hfnd⟩ := ih _ _ h
        have e1 : ¬ ((ch : Char) == '\x7b') = true := by
          simp only [beq_iff_eq]
          exact h1
        have e2 : ¬ ((ch : Char) == '\x7d') = true := by
          simp only [beq_iff_eq]
          exact h2
        have e3 : ¬ (('\x7b' : Char) == ch) = true := by
          simp only [beq_iff_eq]
          exact fun hh => h1 hh.symm
        constructor
        · rw [hcnt, List.count_cons, List.count_cons, if_neg e1, if_neg e2]
          simp
        · rw [hfnd, List.contains_cons]
          rw [show (('\x7b' : Char) == ch) = false from by
            exact Bool.eq_false_iff.mpr (fun hh => e3 hh)]
          simp

/-! ### The claims -/

/-- C1: the claim fails on the code.  For the spec's own example — a matching
declaration line followed by a block ending in a lone closing brace — the
rewrite does NOT leave the block unchanged and append the synthesized line
after the closing line: the inner loop breaks before re-emitting the line on
which the count returned to zero, so the closing-brace line is dropped and
the synthesized line stands in its place. -/
theorem example_closing_line_dropped :
    fix_eventbus_connections ["r := NewBasicRoom(\n", "Config\x7b\n", "\x7d\n"]
        = ["r := NewBasicRoom(\n", "Config\x7b\n",
            "\tr.ConnectToEventBus(eventBus)\n"] ∧
      fix_eventbus_connections ["r := NewBasicRoom(\n", "Config\x7b\n", "\x7d\n"]
        ≠ ["r := NewBasicRoom(\n", "Config\x7b\n", "\x7d\n",
            "\tr.ConnectToEventBus(eventBus)\n"] := by
  constructor
  · rfl
  · decide

/-- C2: the claim fails on the code.  The input is not always a subsequence
of the output: the closing line of a matched multi-line block (here the line
holding the lone closing brace) is absent from the output. -/
theorem input_line_missing_from_output :
    "\x7d\n" ∈ (["q := spatial.NewBasicRoomOrchestrator(\n", "Cfg\x7b\n",
          "\x7d\n"] : List String) ∧
      "\x7d\n" ∉ fix_eventbus_connections
          ["q := spatial.NewBasicRoomOrchestrator(\n", "Cfg\x7b\n", "\x7d\n"] := by
  decide

/-- C3: for an input file in which no line matches the declaration pattern,
the rewritten file equals the original exactly. -/
theorem noDecl_output_eq_input (lines : List String)
    (h : ∀ l ∈ lines, matchDecl l = none) :
    fix_eventbus_connections lines = lines := by
  induction lines with
  | nil => rfl
  | cons l ls ih =>
    have h0 : matchDecl l = none := h l (List.mem_cons_self l ls)
    have ih2 := ih fun x hx => h x (List.mem_cons_of_mem _ hx)
    simp only [fix_eventbus_connections] at ih2 ⊢
    rw [process_cons_none l ls h0, ih2]

/-- Witness for C3 at a concrete three-line Go file with no matching
declaration. -/
theorem noDecl_output_eq_input_witness :
    (∀ l ∈ (["package main\n", "func f() \x7b\n", "\x7d\n"] : List String),
        matchDecl l = none) ∧
      fix_eventbus_connections ["package main\n", "func f() \x7b\n", "\x7d\n"]
        = ["package main\n", "func f() \x7b\n", "\x7d\n"] :=
  ⟨by decide, noDecl_output_eq_input _ (by decide)⟩

/-- C4: for a matching declaration whose inner scan never meets the close
condition (no opening brace, or a count that never returns to zero), the
scan silently consumes every remaining line: each is copied unchanged, no
ConnectToEventBus line is inserted, and — the rewrite being a total
function — no error is raised.  The second conjunct records that the scan
consumed the whole remainder of the file. -/
theorem unbalanced_scan_copies_rest (v l : String) (ls : List String)
    (h1 : matchDecl l = some v)
    (h2 : scanTrace 0 false (l :: ls) = none) :
    fix_eventbus_connections (l :: ls) = l :: ls ∧
      (scanFromDecl v (l :: ls)).2 = ls.length + 1 := by
  have hs := scanFromDecl_of_trace_none v l ls h2
  refine ⟨?_, by rw [hs]⟩
  simp only [fix_eventbus_connections]
  rw [process_cons_some v l ls h1, hs]
  have hd : ls.drop (ls.length + 1) = [] :=
    List.drop_eq_nil_of_le (by omega)
  simp [hd, process, processAux]

/-- Witness for C4 at a concrete file whose initializer block never
closes. -/
theorem unbalanced_scan_copies_rest_witness :
    matchDecl "r := NewBasicRoom(\n" = some "r" ∧
      scanTrace 0 false ["r := NewBasicRoom(\n", "Cfg\x7b\n", "\tID: 1,\n"]
        = none ∧
      fix_eventbus_connections ["r := NewBasicRoom(\n", "Cfg\x7b\n", "\tID: 1,\n"]
        = ["r := NewBasicRoom(\n", "Cfg\x7b\n", "\tID: 1,\n"] :=
  ⟨by decide, by decide,
    (unbalanced_scan_copies_rest "r" _ _ (by decide) (by decide)).1⟩

/-- C5: the rewrite is not idempotent: on a file with one matching
declaration whose braces balance on the declaration line itself, rewriting
twice inserts a second, duplicate ConnectToEventBus line. -/
theorem rewrite_not_idempotent :
    fix_eventbus_connections
        (fix_eventbus_connections ["r := NewBasicRoom(C\x7b\x7d)\n"])
      ≠ fix_eventbus_connections ["r := NewBasicRoom(C\x7b\x7d)\n"] := by
  decide

/-- C6: the delimiter scan has no lexical awareness.  Erasing every
character other than the two brace characters leaves the character scan
unchanged — so a brace inside string-literal or comment text acts exactly
like a structural delimiter, terminating or extending the block scan — and
on a line where the loop did not break early, every opening brace has
incremented and every closing brace decremented the running count, with the
opening flag recording exactly whether some opening brace occurred. -/
theorem brace_scan_no_lexical_awareness (cs : List Char) (c : Int) (f : Bool)
    (h : (scanChars cs c f).appended = false) :
    scanChars (cs.filter fun ch => ch = '\x7b' || ch = '\x7d') c f
        = scanChars cs c f ∧
      (scanChars cs c f).count
          = c + (cs.count '\x7b' : Int) - (cs.count '\x7d' : Int) ∧
      (scanChars cs c f).found = (f || cs.contains '\x7b') :=
  ⟨scanChars_filter cs c f, (scanChars_count cs c f h).1,
    (scanChars_count cs c f h).2⟩

/-- Witness for C6 on a line whose only opening brace sits inside a string
literal: it is counted exactly like a structural delimiter. -/
theorem brace_scan_no_lexical_awareness_witness :
    scanChars (("x := \"\x7b\"\n".toList).filter
          fun ch => ch = '\x7b' || ch = '\x7d') 0 false
        = scanChars "x := \"\x7b\"\n".toList 0 false ∧
      (scanChars "x := \"\x7b\"\n".toList 0 false).count
          = 0 + (("x := \"\x7b\"\n".toList).count '\x7b' : Int)
              - (("x := \"\x7b\"\n".toList).count '\x7d' : Int) ∧
      (scanChars "x := \"\x7b\"\n".toList 0 false).found
          = (false || ("x := \"\x7b\"\n".toList).contains '\x7b') :=
  brace_scan_no_lexical_awareness ("x := \"\x7b\"\n".toList) 0 false (by decide)

/-- C7: with any argument count other than two (script name plus one
filename) the program prints the usage message and exits with code 1
without touching any file; with exactly one filename it rewrites that file,
prints the confirmation message naming it, and finishes with implicit exit
code 0. -/
theorem cli_argument_behavior (argv : List String) (fileLines : List String) :
    (argv.length ≠ 2 →
      mainEntry argv fileLines =
        ⟨1, ["Usage: python3 add-connect-calls.py <filename>"], none⟩) ∧
    (∀ prog fname, argv = [prog, fname] →
      mainEntry argv fileLines =
        ⟨0, ["Fixed EventBus connections in " ++ fname],
          some (fix_eventbus_connections fileLines)⟩) := by
  constructor
  · intro h
    simp [mainEntry, h]
  · rintro prog fname rfl
    simp [mainEntry]

/-- Witness for C7: a zero-filename call and a one-filename call. -/
theorem cli_argument_behavior_witness :
    mainEntry ["add-connect-calls.py"] ["x\n"]
        = ⟨1, ["Usage: python3 add-connect-calls.py <filename>"], none⟩ ∧
      mainEntry ["add-connect-calls.py", "rooms.go"] ["x\n"]
        = ⟨0, ["Fixed EventBus connections in " ++ "rooms.go"],
            some (fix_eventbus_connections ["x\n"])⟩ :=
  ⟨(cli_argument_behavior ["add-connect-calls.py"] ["x\n"]).1 (by decide),
    (cli_argument_behavior ["add-connect-calls.py", "rooms.go"] ["x\n"]).2
      "add-connect-calls.py" "rooms.go" rfl⟩

/-- C8: when the close condition is met strictly after the declaration line
by a closing brace (the character loop appended the synthesized line
there), the closing line — with everything else on it — is omitted from the
output and the synthesized line stands in its place, so the block
contributes exactly as many output lines (`n + 1`) as the input lines it
consumed. -/
theorem closing_line_replaced_by_connect (v l : String) (ls : List String)
    (n : Nat) (h1 : matchDecl l = some v)
    (h2 : scanTrace 0 false (l :: ls) = some (n, true)) (h3 : 1 ≤ n) :
    fix_eventbus_connections (l :: ls)
        = (l :: ls.take (n - 1))
            ++ connectLine v :: fix_eventbus_connections (ls.drop n) ∧
      (l :: (ls.take (n - 1) ++ [connectLine v])).length = n + 1 := by
  have hs := scanFromDecl_of_trace_some v l ls n true h2
  have hlt := scanTrace_lt (l :: ls) 0 false n true h2
  simp only [List.length_cons] at hlt
  constructor
  · simp only [fix_eventbus_connections]
    rw [process_cons_some v l ls h1, hs]
    simp
  · have h4 : n - 1 ≤ ls.length := by omega
    simp only [List.length_cons, List.length_append, List.length_take,
      List.length_nil, Nat.min_eq_left h4]
    omega

/-- Witness for C8 at a concrete file whose block closes two lines after
the declaration: the closing line `\x7d)\n` disappears and the synthesized
line takes its place. -/
theorem closing_line_replaced_by_connect_witness :
    matchDecl "r := spatial.NewBasicRoom(Cfg\x7b\n" = some "r" ∧
      scanTrace 0 false
          ["r := spatial.NewBasicRoom(Cfg\x7b\n", "\tID: 2,\n", "\x7d)\n",
            "done\n"] = some (2, true) ∧
      fix_eventbus_connections
          ["r := spatial.NewBasicRoom(Cfg\x7b\n", "\tID: 2,\n", "\x7d)\n",
            "done\n"]
        = ("r := spatial.NewBasicRoom(Cfg\x7b\n"
              :: List.take 1 ["\tID: 2,\n", "\x7d)\n", "done\n"])
            ++ connectLine "r"
              :: fix_eventbus_connections
                (List.drop 2 ["\tID: 2,\n", "\x7d)\n", "done\n"]) :=
  ⟨by decide, by decide,
    (closing_line_replaced_by_connect "r" _ _ 2 (by decide) (by decide)
      (by decide)).1⟩

/-- C9: when the declaration line itself opens and rebalances its braces
(the character loop appended on that very line), every input line is kept
and exactly one line — the tab-indented, newline-terminated synthesized
call — is inserted immediately after the declaration line, processing then
continuing with the remaining lines unchanged in position. -/
theorem balanced_decl_line_inserts_after (v l : String) (ls : List String)
    (h1 : matchDecl l = some v)
    (h2 : scanLine l 0 false = ⟨0, true, true⟩) :
    fix_eventbus_connections (l :: ls)
        = l :: connectLine v :: fix_eventbus_connections ls ∧
      connectLine v = "\t" ++ v ++ ".ConnectToEventBus(eventBus)\n" := by
  refine ⟨?_, rfl⟩
  have ht : scanTrace 0 false (l :: ls) = some (0, true) := by
    simp [scanTrace, h2, closesHere]
  have hs := scanFromDecl_of_trace_some v l ls 0 true ht
  simp only [fix_eventbus_connections]
  rw [process_cons_some v l ls h1, hs]
  simp

/-- Witness for C9 at a declaration whose initializer block is balanced on
the declaration line itself. -/
theorem balanced_decl_line_inserts_after_witness :
    matchDecl "r := NewBasicRoom(C\x7b\x7d)\n" = some "r" ∧
      scanLine "r := NewBasicRoom(C\x7b\x7d)\n" 0 false = ⟨0, true, true⟩ ∧
      fix_eventbus_connections ["r := NewBasicRoom(C\x7b\x7d)\n", "x\n"]
        = "r := NewBasicRoom(C\x7b\x7d)\n"
            :: connectLine "r" :: fix_eventbus_connections ["x\n"] :=
  ⟨by decide, by decide,
    (balanced_decl_line_inserts_after "r" _ ["x\n"] (by decide) (by decide)).1⟩

/-- C10, counterexample to the claim as stated: a further matching
declaration inside the scanned block is NOT always copied to the output.
When the inner declaration sits on the very line that meets the close
condition (the block's closing line), that line is dropped entirely: here
the second line matches the declaration pattern, lies inside the block
scanned for the first declaration, and is absent from the output. -/
theorem inner_decl_on_closing_line_not_copied :
    matchDecl "b := NewBasicRoom(\x7d\n" = some "b" ∧
      "b := NewBasicRoom(\x7d\n"
        ∈ (["a := NewBasicRoom(C\x7b\n", "b := NewBasicRoom(\x7d\n",
            "tail\n"] : List String) ∧
      fix_eventbus_connections
          ["a := NewBasicRoom(C\x7b\n", "b := NewBasicRoom(\x7d\n", "tail\n"]
        = ["a := NewBasicRoom(C\x7b\n", "\ta.ConnectToEventBus(eventBus)\n",
            "tail\n"] ∧
      "b := NewBasicRoom(\x7d\n" ∉ fix_eventbus_connections
          ["a := NewBasicRoom(C\x7b\n", "b := NewBasicRoom(\x7d\n",
            "tail\n"] := by
  refine ⟨by decide, by decide, by rfl, by decide⟩

/-- C10, as amended: after a matching declaration the outer loop resumes
exactly past the lines consumed by the inner scan; a further matching
declaration lying inside the scanned block (or inside the remainder
consumed by an unbalanced scan) never triggers an insertion of its own —
every emitted line is a copy of an input line or the single synthesized
line for the outer identifier — and it is copied to the output unless it is
the line on which the close condition is met, which is omitted: when the
scan closes at relative position `n` the emitted block output is exactly
the lines strictly between the declaration and the closing line (plus the
synthesized line when the character loop appended it), and when the scan
runs off the end of the file it is exactly all remaining lines. -/
theorem outer_resume_and_inner_decls (v l : String) (ls : List String)
    (h : matchDecl l = some v) :
    fix_eventbus_connections (l :: ls)
        = l :: ((scanFromDecl v (l :: ls)).1
            ++ fix_eventbus_connections
              (ls.drop (scanFromDecl v (l :: ls)).2)) ∧
      (∀ x ∈ (scanFromDecl v (l :: ls)).1, x ∈ l :: ls ∨ x = connectLine v) ∧
      (∀ (n : Nat) (app : Bool), scanTrace 0 false (l :: ls) = some (n, app) →
          (scanFromDecl v (l :: ls)).1
            = ls.take (n - 1) ++ (if app then [connectLine v] else [])) ∧
      (scanTrace 0 false (l :: ls) = none →
          (scanFromDecl v (l :: ls)).1 = ls) := by
  refine ⟨?_, fun x hx => mem_scanFromDecl v l ls x hx, ?_, ?_⟩
  · simp only [fix_eventbus_connections]
    exact process_cons_some v l ls h
  · intro n app ht
    rw [scanFromDecl_of_trace_some v l ls n app ht]
  · intro ht
    rw [scanFromDecl_of_trace_none v l ls ht]

/-- Witness for the amended C10 at a file whose block contains a second
matching declaration strictly inside it: the scan closes two lines after
the declaration, and the block's emitted output is exactly the one
intermediate line — the inner declaration, copied, with no insertion of its
own — followed by the outer identifier's synthesized line. -/
theorem outer_resume_and_inner_decls_witness :
    matchDecl "a := NewBasicRoom(C\x7b\n" = some "a" ∧
      scanTrace 0 false
          ["a := NewBasicRoom(C\x7b\n", "\tb := NewBasicRoom(D\x7b\x7d)\n",
            "\x7d)\n"] = some (2, true) ∧
      (scanFromDecl "a"
          ["a := NewBasicRoom(C\x7b\n", "\tb := NewBasicRoom(D\x7b\x7d)\n",
            "\x7d)\n"]).1
        = List.take 1 ["\tb := NewBasicRoom(D\x7b\x7d)\n", "\x7d)\n"]
            ++ (if true then [connectLine "a"] else []) :=
  ⟨by decide, by decide,
    (outer_resume_and_inner_decls "a"
        "a := NewBasicRoom(C\x7b\n"
        ["\tb := NewBasicRoom(D\x7b\x7d)\n", "\x7d)\n"]
        (by decide)).2.2.1 2 true (by decide)⟩

end AddConnectCalls
